import Mathlib

/-!
Verification development for the streaming chunk-and-playback pipeline of the
tts-api repository: the incremental text segmenter (`LLMTextChunker` /
`TextChunker`), the gapless audio schedulers (`AudioStreamPlayer` /
`AudioQueuePlayer`), the HTTP streaming client loop (`streamTTSFromHTTP`), the
pipeline orchestrator (`VoicePipeline`) and the SSE event loop of
`useVoiceChat.sendMessage`.

Strings are modelled as `List Char`; the JavaScript regular expressions
`/^(.*?[.!?]\s+)/` and `/^(.*?[,;:]\s+)/` are modelled operationally by
`findBoundary`, which mirrors the backtracking behaviour of the lazy
quantifier: it scans left to right for the first terminator that is
immediately followed by a whitespace character and then greedily extends the
match through the whole whitespace run.  The `dot` flag distinguishes the
`/s` (dotAll) variant used by `TextChunker.add` from the plain variant used
by `LLMTextChunker.addToken`: without `/s`, `.` matches any character
except a line terminator (LF, CR, U+2028, U+2029), so the scan aborts when
it meets a line terminator before a boundary.  The whitespace class models
the JavaScript `\s` class (whitespace and line terminators).  Time values
of the Web Audio clock are modelled as rationals.
-/

/-- The JavaScript whitespace class `\s`: space, tab, LF, CR, vertical
tab, form feed, NBSP, Ogham space, the U+2000..U+200A spaces, the line and
paragraph separators, narrow and medium mathematical spaces, ideographic
space and the BOM. -/
def isJsWS (c : Char) : Bool :=
  c = ' ' || c = '\t' || c = '\n' || c = '\r' || c = Char.ofNat 11 || c = Char.ofNat 12
    || c = Char.ofNat 0xa0 || c = Char.ofNat 0x1680
    || (0x2000 ≤ c.toNat && c.toNat ≤ 0x200a)
    || c = Char.ofNat 0x2028 || c = Char.ofNat 0x2029
    || c = Char.ofNat 0x202f || c = Char.ofNat 0x205f
    || c = Char.ofNat 0x3000 || c = Char.ofNat 0xfeff

/-- The JavaScript line terminators, the characters `.` does not match
without the `/s` flag: LF, CR, line separator, paragraph separator. -/
def isJsLineTerm (c : Char) : Bool :=
  c = '\n' || c = '\r' || c = Char.ofNat 0x2028 || c = Char.ofNat 0x2029

/-- Negation of `isJsWS`: the characters that survive whitespace trimming. -/
def nonWS (c : Char) : Bool := !(isJsWS c)

/-- Sentence terminators of the regex class `[.!?]`. -/
def sentTerm (c : Char) : Bool := c = '.' || c = '!' || c = '?'

/-- Clause terminators of the regex class `[,;:]`. -/
def clauseTerm (c : Char) : Bool := c = ',' || c = ';' || c = ':'

/-- Model of `s.match(/^(.*?[T]\s+)/)` (with `/s` when `dot = true`): scan
for the first position holding a terminator immediately followed by a
whitespace character, then extend greedily through the whitespace run.
Returns the matched group together with the remaining suffix.  Without
`dot`, the lazy `.*?` cannot cross a line terminator, so the scan stops at
the first one reached before a boundary. -/
def findBoundary (dot : Bool) (T : Char → Bool) : List Char → Option (List Char × List Char)
  | [] => none
  | [_] => none
  | c :: d :: t =>
    if T c && isJsWS d then
      some (c :: (d :: t).takeWhile isJsWS, (d :: t).dropWhile isJsWS)
    else if !dot && isJsLineTerm c then none
    else (findBoundary dot T (d :: t)).map (fun p => (c :: p.1, p.2))

/-- Model of JavaScript `String.prototype.trim` (ASCII whitespace). -/
def trimChars (s : List Char) : List Char :=
  ((s.dropWhile isJsWS).reverse.dropWhile isJsWS).reverse

/-- The clause-boundary fallback shared by `LLMTextChunker.addToken` and
`TextChunker.add`: only evaluated when the buffer is longer than 50
characters; emits the trimmed clause match and slices the buffer when the
raw match length reaches `minChars`. -/
def clausePart (dot : Bool) (minChars : Nat) (buf : List Char) : List Char × List (List Char) :=
  if 50 < buf.length then
    match findBoundary dot clauseTerm buf with
    | some (m, r) => if minChars ≤ m.length then (r, [trimChars m]) else (buf, [])
    | none => (buf, [])
  else (buf, [])

/-- Body shared by `LLMTextChunker.addToken` (with `dot = false`) and
`TextChunker.add` (with `dot = true`), applied to the buffer with the new
token already appended: test the sentence boundary first, emitting the
trimmed match and slicing off the raw match when its length reaches
`minChars`; otherwise fall through to the clause fallback.  Returns the new
buffer and the list of emitted chunks (at most one). -/
def stepChunk (dot : Bool) (minChars : Nat) (buf : List Char) : List Char × List (List Char) :=
  match findBoundary dot sentTerm buf with
  | some (m, r) =>
    if minChars ≤ m.length then (r, [trimChars m]) else clausePart dot minChars buf
  | none => clausePart dot minChars buf

/-- Body shared by `LLMTextChunker.flush` and `TextChunker.flush`: when the
buffer is non-empty after trimming, emit the trimmed buffer and clear the
buffer; otherwise emit nothing and leave the buffer untouched (the source
only clears the buffer inside the truthiness guard). -/
def flushChunk (buf : List Char) : List Char × List (List Char) :=
  if trimChars buf = [] then (buf, []) else ([], [trimChars buf])

/-- State of `LLMTextChunker` (voice-pipeline file): pending buffer and the
`minChars` threshold (default 20). -/
structure LLMTextChunker where
  buffer : List Char
  minChars : Nat
deriving DecidableEq

/-- `LLMTextChunker.addToken`: append the token, then apply the boundary
tests (regexes without `/s`).  Emitted chunks are returned in place of the
`onChunk` callback invocations. -/
def LLMTextChunker.addToken (st : LLMTextChunker) (token : List Char) :
    LLMTextChunker × List (List Char) :=
  let r := stepChunk false st.minChars (st.buffer ++ token)
  ({ st with buffer := r.1 }, r.2)

/-- `LLMTextChunker.flush`: emit the trimmed remaining buffer when non-empty. -/
def LLMTextChunker.flush (st : LLMTextChunker) : LLMTextChunker × List (List Char) :=
  let r := flushChunk st.buffer
  ({ st with buffer := r.1 }, r.2)

/-- State of `TextChunker` (Next.js API route): same fields, regexes with `/s`. -/
structure TextChunker where
  buffer : List Char
  minChars : Nat
deriving DecidableEq

/-- `TextChunker.add` (API route): same algorithm with dotAll regexes. -/
def TextChunker.add (st : TextChunker) (text : List Char) : TextChunker × List (List Char) :=
  let r := stepChunk true st.minChars (st.buffer ++ text)
  ({ st with buffer := r.1 }, r.2)

/-- `TextChunker.flush` (API route). -/
def TextChunker.flush (st : TextChunker) : TextChunker × List (List Char) :=
  let r := flushChunk st.buffer
  ({ st with buffer := r.1 }, r.2)

/-- Feed a sequence of fragments through the segmenter, starting from the
given pending buffer, collecting all emitted chunks in order. -/
def runTokens (dot : Bool) (minChars : Nat) (buf : List Char) :
    List (List Char) → List Char × List (List Char)
  | [] => (buf, [])
  | t :: ts =>
    let r1 := stepChunk dot minChars (buf ++ t)
    let r2 := runTokens dot minChars r1.1 ts
    (r2.1, r1.2 ++ r2.2)

/-- Feed a whole fragment sequence from a fresh segmenter and finish with
one `flush()`, collecting every emitted chunk in emission order. -/
def runAll (dot : Bool) (minChars : Nat) (ts : List (List Char)) :
    List Char × List (List Char) :=
  let r := runTokens dot minChars [] ts
  let f := flushChunk r.1
  (f.1, r.2 ++ f.2)

/-- Decode one little-endian byte pair into a signed 16-bit sample, as the
`Int16Array` view does. -/
def toInt16 (lo hi : Nat) : Int :=
  let v := lo % 256 + 256 * (hi % 256)
  if v < 32768 then (v : Int) else (v : Int) - 65536

/-- Model of `new Int16Array(pcmData)`: decode little-endian byte pairs;
a buffer with an odd byte length is rejected (the constructor throws a
`RangeError`), modelled by `none`. -/
def bytesToSamples : List Nat → Option (List Int)
  | [] => some []
  | [_] => none
  | lo :: hi :: rest => (bytesToSamples rest).map (fun s => toInt16 lo hi :: s)

/-- Outcome of one `addChunk` / `addPCM` call: an early return, a scheduled
buffer with its chosen start time and duration, or a thrown decode error. -/
inductive AddResult where
  | noop
  | scheduled (start dur : ℚ)
  | error
deriving DecidableEq

/-- State of `AudioStreamPlayer` (voice-pipeline file): whether the
`AudioContext` was created, the `isPlaying` flag, `nextStartTime`, the fixed
sample rate and the retained `scheduledBuffers` handles, each recorded as a
(start, duration) pair. -/
structure AudioStreamPlayer where
  inited : Bool
  isPlaying : Bool
  nextStartTime : ℚ
  sampleRate : ℚ
  scheduled : List (ℚ × ℚ)
deriving DecidableEq

/-- `AudioStreamPlayer.addChunk`: early return unless the context exists and
`isPlaying` holds; decode the bytes as 16-bit samples; schedule at
`max(nextStartTime, currentTime)`; advance `nextStartTime` by the buffer
duration (sample count over sample rate); retain the handle. -/
def AudioStreamPlayer.addChunk (st : AudioStreamPlayer) (now : ℚ) (bytes : List Nat) :
    AudioStreamPlayer × AddResult :=
  if !st.inited || !st.isPlaying then (st, .noop)
  else
    match bytesToSamples bytes with
    | none => (st, .error)
    | some samples =>
      let dur : ℚ := (samples.length : ℚ) / st.sampleRate
      let start := max st.nextStartTime now
      ({ st with
          nextStartTime := start + dur,
          scheduled := st.scheduled ++ [(start, dur)] },
        .scheduled start dur)

/-- `AudioStreamPlayer.stop`: clear `isPlaying`, stop every retained source
(returned as the cancelled list), clear the handle list and set
`nextStartTime` to `0`. -/
def AudioStreamPlayer.stop (st : AudioStreamPlayer) : AudioStreamPlayer × List (ℚ × ℚ) :=
  ({ st with isPlaying := false, scheduled := [], nextStartTime := 0 }, st.scheduled)

/-- `AudioStreamPlayer.init`: acquire the context, set `nextStartTime` to the
device current time and mark playing. -/
def AudioStreamPlayer.init (st : AudioStreamPlayer) (now : ℚ) : AudioStreamPlayer :=
  { st with inited := true, nextStartTime := now, isPlaying := true }

/-- State of `AudioQueuePlayer` (React hook file): same scheduler without an
`isPlaying` flag; retained handles live in `sources`. -/
structure AudioQueuePlayer where
  inited : Bool
  nextStartTime : ℚ
  sampleRate : ℚ
  sources : List (ℚ × ℚ)
deriving DecidableEq

/-- `AudioQueuePlayer.addPCM`: early return only when the context is absent;
otherwise identical scheduling discipline to `AudioStreamPlayer.addChunk`. -/
def AudioQueuePlayer.addPCM (st : AudioQueuePlayer) (now : ℚ) (bytes : List Nat) :
    AudioQueuePlayer × AddResult :=
  if !st.inited then (st, .noop)
  else
    match bytesToSamples bytes with
    | none => (st, .error)
    | some samples =>
      let dur : ℚ := (samples.length : ℚ) / st.sampleRate
      let start := max st.nextStartTime now
      ({ st with
          nextStartTime := start + dur,
          sources := st.sources ++ [(start, dur)] },
        .scheduled start dur)

/-- `AudioQueuePlayer.stop`: stop and drop every retained source; when the
context exists, reset `nextStartTime` to the device current time. -/
def AudioQueuePlayer.stop (st : AudioQueuePlayer) (now : ℚ) :
    AudioQueuePlayer × List (ℚ × ℚ) :=
  let t := if st.inited then now else st.nextStartTime
  ({ st with sources := [], nextStartTime := t }, st.sources)

/-- `AudioQueuePlayer.init`: acquire the context and reset `nextStartTime`. -/
def AudioQueuePlayer.init (st : AudioQueuePlayer) (now : ℚ) : AudioQueuePlayer :=
  { st with inited := true, nextStartTime := now }

/-- Read loop of `streamTTSFromHTTP`: each received byte range is handed
directly to `player.addChunk`; a thrown decode error (odd byte length)
aborts the loop, reported with the offending read. -/
def runReads (st : AudioStreamPlayer) (now : ℚ) :
    List (List Nat) → Except (List Nat) AudioStreamPlayer
  | [] => .ok st
  | r :: rs =>
    match AudioStreamPlayer.addChunk st now r with
    | (_, .error) => .error r
    | (st2, _) => runReads st2 now rs

/-- State of `VoicePipeline`: the chunker buffer (the constructor leaves
`minChars` at its default 20) and the sequence of `sendText` messages
issued to the TTS WebSocket client, each a (text, isFinal) pair (the
language argument is constant). -/
structure VoicePipeline where
  buffer : List Char
  sent : List (List Char × Bool)
deriving DecidableEq

/-- `VoicePipeline.processToken`: feed the token to the chunker; the chunker
callback sends every emitted chunk with `isFinal = false`. -/
def VoicePipeline.processToken (ps : VoicePipeline) (t : List Char) : VoicePipeline :=
  let r := stepChunk false 20 (ps.buffer ++ t)
  { buffer := r.1, sent := ps.sent ++ r.2.map (fun c => (c, false)) }

/-- `VoicePipeline.finalize`: flush the chunker (each flushed chunk goes out
through the callback with `isFinal = false`), then send one extra message
with empty text and `isFinal = true`. -/
def VoicePipeline.finalize (ps : VoicePipeline) : VoicePipeline :=
  let r := flushChunk ps.buffer
  { buffer := r.1,
    sent := (ps.sent ++ r.2.map (fun c => (c, false))) ++ [([], true)] }

/-- Parsed server-sent event in `useVoiceChat.sendMessage`: the four tagged
event kinds plus a malformed line whose `JSON.parse` throws. -/
inductive SSEEvent where
  | token (t : List Char)
  | audio (chunk : List Nat)
  | done
  | errorEv (msg : List Char)
  | malformed
deriving DecidableEq

/-- Hook state of `useVoiceChat` together with the audio chunks handed to
the playback queue. -/
structure VCState where
  isLoading : Bool
  isPlaying : Bool
  transcript : List Char
  error : Option (List Char)
  delivered : List (List Nat)
deriving DecidableEq

/-- One iteration of the event switch inside `sendMessage`.  The `try`
block wrapping the switch catches every exception with an empty handler
(commented as skipping malformed events); the `throw new Error(data.message)`
in the `error` case is therefore caught there as well, so the net effect of
an `error` event is no state change, and the loop continues. -/
def handleLine (st : VCState) (e : SSEEvent) : VCState :=
  match e with
  | .token t => { st with transcript := st.transcript ++ t }
  | .audio c => { st with delivered := st.delivered ++ [c] }
  | .done => { st with isLoading := false }
  | .errorEv _ => st
  | .malformed => st

/-- The SSE read loop of `sendMessage` over the parsed event lines. -/
def processEvents (st : VCState) (es : List SSEEvent) : VCState :=
  es.foldl handleLine st

/-- Model of `useVoiceChat.sendMessage`: state is reset, playback starts;
a non-OK response status throws, and the outer catch records a visible
error and clears the flags; otherwise the event lines are processed by the
inner loop. -/
def sendMessage (ok : Bool) (events : List SSEEvent) : VCState :=
  let st0 : VCState :=
    { isLoading := true, isPlaying := true, transcript := [], error := none, delivered := [] }
  if !ok then
    { st0 with error := some ("Request failed".toList), isLoading := false, isPlaying := false }
  else processEvents st0 events

/-- Position `i` of `s` holds a terminator immediately followed by a
whitespace character: the declarative notion of a boundary used by the
segmenter specification. -/
def boundaryAt (T : Char → Bool) (s : List Char) (i : Nat) : Prop :=
  i + 1 < s.length ∧ T (s.getD i ' ') = true ∧ isJsWS (s.getD (i + 1) ' ') = true

instance (T : Char → Bool) (s : List Char) (i : Nat) : Decidable (boundaryAt T s i) := by
  unfold boundaryAt
  infer_instance

/-- Without dotAll, the lazy `.*?` must reach position `i` without crossing
a line terminator (LF, CR, U+2028, U+2029); with dotAll the condition is
vacuous. -/
def noLineTermBefore (dot : Bool) (s : List Char) (i : Nat) : Prop :=
  dot = true ∨ ∀ j, j < i → isJsLineTerm (s.getD j ' ') = false

instance (dot : Bool) (s : List Char) (i : Nat) : Decidable (noLineTermBefore dot s i) := by
  unfold noLineTermBefore
  infer_instance

/-- End position of the match whose boundary terminator sits at `i`: the
terminator plus the greedy whitespace run that follows it. -/
def wsExtent (s : List Char) (i : Nat) : Nat :=
  i + 1 + ((s.drop (i + 1)).takeWhile isJsWS).length

theorem take_len_takeWhile (p : Char → Bool) :
    ∀ u : List Char, u.take (u.takeWhile p).length = u.takeWhile p := by
  intro u
  induction u with
  | nil => rfl
  | cons c t ih =>
    by_cases h : p c
    · simp [List.takeWhile_cons, h, ih]
    · simp [List.takeWhile_cons, h]

theorem drop_len_takeWhile (p : Char → Bool) :
    ∀ u : List Char, u.drop (u.takeWhile p).length = u.dropWhile p := by
  intro u
  induction u with
  | nil => rfl
  | cons c t ih =>
    by_cases h : p c
    · simp [List.takeWhile_cons, List.dropWhile_cons, h, ih]
    · simp [List.takeWhile_cons, List.dropWhile_cons, h]

theorem len_takeWhile_le (p : Char → Bool) :
    ∀ u : List Char, (u.takeWhile p).length ≤ u.length := by
  intro u
  induction u with
  | nil => exact Nat.le_refl 0
  | cons c t ih =>
    by_cases h : p c
    · simpa [List.takeWhile_cons, h] using Nat.succ_le_succ ih
    · simp [List.takeWhile_cons, h]

theorem boundaryAt_cons (T : Char → Bool) (c : Char) (u : List Char) (i : Nat) :
    boundaryAt T (c :: u) (i + 1) ↔ boundaryAt T u i := by
  unfold boundaryAt
  simp [List.getD_cons_succ, Nat.succ_lt_succ_iff]

theorem boundaryAt_zero (T : Char → Bool) (c d : Char) (t : List Char) :
    boundaryAt T (c :: d :: t) 0 ↔ (T c = true ∧ isJsWS d = true) := by
  unfold boundaryAt
  simp

theorem wsExtent_cons (c : Char) (u : List Char) (i : Nat) :
    wsExtent (c :: u) (i + 1) = wsExtent u i + 1 := by
  unfold wsExtent
  simp [List.drop_succ_cons]
  omega

theorem wsExtent_le (s : List Char) (i : Nat) (h : i + 1 < s.length) :
    wsExtent s i ≤ s.length := by
  unfold wsExtent
  have h1 := len_takeWhile_le isJsWS (s.drop (i + 1))
  rw [List.length_drop] at h1
  omega

theorem findBoundary_eq_append (dot : Bool) (T : Char → Bool) :
    ∀ (s m r : List Char), findBoundary dot T s = some (m, r) → s = m ++ r := by
  intro s
  induction s with
  | nil => intro m r h; simp [findBoundary] at h
  | cons c u ih =>
    intro m r h
    rcases u with _ | ⟨d, t⟩
    · simp [findBoundary] at h
    · rw [findBoundary] at h
      by_cases h1 : (T c && isJsWS d) = true
      · rw [if_pos h1] at h
        rcases h with ⟨⟩
        simp [List.takeWhile_append_dropWhile]
      · rw [if_neg h1] at h
        by_cases h2 : (!dot && isJsLineTerm c) = true
        · rw [if_pos h2] at h; cases h
        · rw [if_neg h2] at h
          cases hfb : findBoundary dot T (d :: t) with
          | none => rw [hfb] at h; cases h
          | some p =>
            rw [hfb] at h
            cases h
            have := ih p.1 p.2 (by rw [hfb])
            simp [this]

theorem findBoundary_first (dot : Bool) (T : Char → Bool) :
    ∀ (i : Nat) (s : List Char), boundaryAt T s i → noLineTermBefore dot s i →
      (∀ j, j < i → ¬ boundaryAt T s j) →
      findBoundary dot T s = some (s.take (wsExtent s i), s.drop (wsExtent s i)) := by
  intro i
  induction i with
  | zero =>
    intro s hb _ _
    obtain ⟨hlen, hT, hw⟩ := hb
    rcases s with _ | ⟨c, u⟩
    · simp at hlen
    rcases u with _ | ⟨d, t⟩
    · simp at hlen
    rw [List.getD_cons_zero] at hT
    rw [List.getD_cons_succ, List.getD_cons_zero] at hw
    rw [findBoundary, if_pos (by rw [hT, hw]; rfl)]
    unfold wsExtent
    rw [List.drop_succ_cons, List.drop_zero]
    have e1 : 0 + 1 + ((d :: t).takeWhile isJsWS).length
        = ((d :: t).takeWhile isJsWS).length + 1 := by omega
    rw [e1, List.take_succ_cons, List.drop_succ_cons, take_len_takeWhile, drop_len_takeWhile]
  | succ i ih =>
    intro s hb hnl hmin
    obtain ⟨hlen, hT, hw⟩ := hb
    rcases s with _ | ⟨c, u⟩
    · simp at hlen
    rcases u with _ | ⟨d, t⟩
    · simp at hlen
    have hb0 : ¬ boundaryAt T (c :: d :: t) 0 := hmin 0 (Nat.succ_pos i)
    rw [boundaryAt_zero] at hb0
    have hcd : ¬ (T c && isJsWS d) = true := fun hand => hb0 (Bool.and_eq_true_iff.mp hand)
    have hnl2 : ¬ (!dot && isJsLineTerm c) = true := by
      intro hand
      rcases Bool.and_eq_true_iff.mp hand with ⟨ha, hb2⟩
      rcases hnl with hdot | hno
      · rw [hdot] at ha; cases ha
      · have h0 := hno 0 (Nat.succ_pos i)
        rw [List.getD_cons_zero] at h0
        rw [h0] at hb2
        cases hb2
    have hbshift : boundaryAt T (d :: t) i :=
      (boundaryAt_cons T c (d :: t) i).mp ⟨hlen, hT, hw⟩
    have hnlshift : noLineTermBefore dot (d :: t) i := by
      rcases hnl with hdot | hno
      · exact Or.inl hdot
      · refine Or.inr fun j hj => ?_
        have h2 := hno (j + 1) (Nat.succ_lt_succ hj)
        simpa using h2
    have hminshift : ∀ j, j < i → ¬ boundaryAt T (d :: t) j := by
      intro j hj hbj
      exact hmin (j + 1) (Nat.succ_lt_succ hj) ((boundaryAt_cons T c (d :: t) j).mpr hbj)
    have hrec := ih (d :: t) hbshift hnlshift hminshift
    rw [findBoundary, if_neg hcd, if_neg hnl2, hrec, wsExtent_cons]
    rw [List.take_succ_cons, List.drop_succ_cons]
    rfl

theorem findBoundary_none (dot : Bool) (T : Char → Bool) :
    ∀ s : List Char, (∀ i, ¬ (boundaryAt T s i ∧ noLineTermBefore dot s i)) →
      findBoundary dot T s = none := by
  intro s
  induction s with
  | nil => intro _; rfl
  | cons c u ih =>
    intro h
    rcases u with _ | ⟨d, t⟩
    · rfl
    rw [findBoundary]
    have hcd : ¬ (T c && isJsWS d) = true := by
      intro hand
      rcases Bool.and_eq_true_iff.mp hand with ⟨ha, hb⟩
      exact h 0 ⟨(boundaryAt_zero T c d t).mpr ⟨ha, hb⟩,
        Or.inr fun j hj => absurd hj (Nat.not_lt_zero j)⟩
    rw [if_neg hcd]
    by_cases hnl : (!dot && isJsLineTerm c) = true
    · rw [if_pos hnl]
    · rw [if_neg hnl]
      have hcnl : dot = true ∨ isJsLineTerm c = false := by
        by_cases hd : dot = true
        · exact Or.inl hd
        · have hdot : (!dot) = true := by
            rcases Bool.eq_false_or_eq_true dot with h1 | h1
            · exact absurd h1 hd
            · rw [h1]; rfl
          rcases Bool.eq_false_or_eq_true (isJsLineTerm c) with h1 | h1
          · exact absurd (Bool.and_eq_true_iff.mpr ⟨hdot, h1⟩) hnl
          · exact Or.inr h1
      have hrec : findBoundary dot T (d :: t) = none := by
        apply ih
        intro i hi
        rcases hi with ⟨hbi, hnli⟩
        refine h (i + 1) ⟨(boundaryAt_cons T c (d :: t) i).mpr hbi, ?_⟩
        rcases hnli with hdot | hno
        · exact Or.inl hdot
        · rcases hcnl with hdot | hcne
          · exact Or.inl hdot
          · refine Or.inr fun j hj => ?_
            rcases j with _ | j
            · simpa using hcne
            · have := hno j (Nat.lt_of_succ_lt_succ hj)
              simpa using this
      rw [hrec]
      rfl

theorem filter_dropWhileWS (s : List Char) :
    (s.dropWhile isJsWS).filter nonWS = s.filter nonWS := by
  induction s with
  | nil => rfl
  | cons c t ih =>
    by_cases h : isJsWS c
    · have hn : nonWS c = false := by simp [nonWS, h]
      simp [List.dropWhile_cons, h, List.filter_cons, hn, ih]
    · simp [List.dropWhile_cons, h, List.filter_cons]

theorem filter_trimChars (s : List Char) :
    (trimChars s).filter nonWS = s.filter nonWS := by
  unfold trimChars
  rw [List.filter_reverse, filter_dropWhileWS, List.filter_reverse, List.reverse_reverse,
    filter_dropWhileWS]

theorem stepChunk_eq_some (dot : Bool) (mc : Nat) (buf m r : List Char)
    (hs : findBoundary dot sentTerm buf = some (m, r)) :
    stepChunk dot mc buf
      = if mc ≤ m.length then (r, [trimChars m]) else clausePart dot mc buf := by
  unfold stepChunk
  rw [hs]

theorem stepChunk_eq_none (dot : Bool) (mc : Nat) (buf : List Char)
    (hs : findBoundary dot sentTerm buf = none) :
    stepChunk dot mc buf = clausePart dot mc buf := by
  unfold stepChunk
  rw [hs]

theorem clausePart_eq_some (dot : Bool) (mc : Nat) (buf m r : List Char)
    (h50 : 50 < buf.length) (hc : findBoundary dot clauseTerm buf = some (m, r)) :
    clausePart dot mc buf = if mc ≤ m.length then (r, [trimChars m]) else (buf, []) := by
  unfold clausePart
  rw [if_pos h50, hc]

theorem clausePart_eq_none (dot : Bool) (mc : Nat) (buf : List Char)
    (h50 : 50 < buf.length) (hc : findBoundary dot clauseTerm buf = none) :
    clausePart dot mc buf = (buf, []) := by
  unfold clausePart
  rw [if_pos h50, hc]

theorem clausePart_small (dot : Bool) (mc : Nat) (buf : List Char)
    (h50 : ¬ 50 < buf.length) :
    clausePart dot mc buf = (buf, []) := by
  unfold clausePart
  rw [if_neg h50]

theorem clausePart_cases (dot : Bool) (mc : Nat) (buf : List Char) :
    (clausePart dot mc buf = (buf, [])) ∨
      (∃ m, buf = m ++ (clausePart dot mc buf).1
        ∧ (clausePart dot mc buf).2 = [trimChars m]) := by
  by_cases h50 : 50 < buf.length
  · cases hc : findBoundary dot clauseTerm buf with
    | none => exact Or.inl (clausePart_eq_none dot mc buf h50 hc)
    | some p =>
      rcases p with ⟨m, r⟩
      have he := clausePart_eq_some dot mc buf m r h50 hc
      by_cases hm : mc ≤ m.length
      · rw [if_pos hm] at he
        refine Or.inr ⟨m, ?_, ?_⟩
        · rw [he]
          exact findBoundary_eq_append dot clauseTerm buf m r hc
        · rw [he]
      · rw [if_neg hm] at he
        exact Or.inl he
  · exact Or.inl (clausePart_small dot mc buf h50)

theorem stepChunk_cases (dot : Bool) (mc : Nat) (buf : List Char) :
    (stepChunk dot mc buf = (buf, [])) ∨
      (∃ m, buf = m ++ (stepChunk dot mc buf).1
        ∧ (stepChunk dot mc buf).2 = [trimChars m]) := by
  cases hs : findBoundary dot sentTerm buf with
  | none =>
    rw [stepChunk_eq_none dot mc buf hs]
    exact clausePart_cases dot mc buf
  | some p =>
    rcases p with ⟨m, r⟩
    have he := stepChunk_eq_some dot mc buf m r hs
    by_cases hm : mc ≤ m.length
    · rw [if_pos hm] at he
      refine Or.inr ⟨m, ?_, ?_⟩
      · rw [he]
        exact findBoundary_eq_append dot sentTerm buf m r hs
      · rw [he]
    · rw [if_neg hm] at he
      rw [he]
      exact clausePart_cases dot mc buf

theorem stepChunk_filter (dot : Bool) (mc : Nat) (buf : List Char) :
    ((stepChunk dot mc buf).2.flatten ++ (stepChunk dot mc buf).1).filter nonWS
      = buf.filter nonWS := by
  rcases stepChunk_cases dot mc buf with h | ⟨m, hm, ho⟩
  · rw [h]
    simp
  · rw [ho]
    conv_rhs => rw [hm]
    simp [List.filter_append, filter_trimChars]

theorem runTokens_filter (dot : Bool) (mc : Nat) :
    ∀ (ts : List (List Char)) (buf : List Char),
      ((runTokens dot mc buf ts).2.flatten ++ (runTokens dot mc buf ts).1).filter nonWS
        = (buf ++ ts.flatten).filter nonWS := by
  intro ts
  induction ts with
  | nil => intro buf; simp [runTokens]
  | cons t ts ih =>
    intro buf
    rw [runTokens]
    have h1 := stepChunk_filter dot mc (buf ++ t)
    have h2 := ih (stepChunk dot mc (buf ++ t)).1
    simp only [List.flatten_cons, List.flatten_append, List.filter_append,
      List.append_assoc] at h1 h2 ⊢
    rw [h2, ← List.append_assoc, h1, List.append_assoc]

theorem flushChunk_filter (buf : List Char) :
    ((flushChunk buf).2.flatten ++ (flushChunk buf).1).filter nonWS = buf.filter nonWS := by
  unfold flushChunk
  by_cases h : trimChars buf = []
  · rw [if_pos h]
    simp
  · rw [if_neg h]
    simp [filter_trimChars]

theorem flushChunk_rest_ws (buf : List Char) :
    ((flushChunk buf).1).filter nonWS = [] := by
  unfold flushChunk
  by_cases h : trimChars buf = []
  · rw [if_pos h]
    have h2 := filter_trimChars buf
    rw [h] at h2
    simpa using h2.symm
  · rw [if_neg h]
    rfl

/-- Apostrophe character, kept symbolic. -/
def apos : Char := Char.ofNat 39

/-- The example input sentence of the spec testable property used by C8. -/
def c8input : List Char :=
  "Sure, let".toList ++ [apos] ++ "s break this down. First, here".toList
    ++ [apos] ++ "s how it works.".toList

/-- First expected emitted phrase for the C8 input. -/
def c8first : List Char := "Sure, let".toList ++ [apos] ++ "s break this down.".toList

/-- Second expected emitted phrase for the C8 input. -/
def c8second : List Char := "First, here".toList ++ [apos] ++ "s how it works.".toList

theorem c8phase1 : ∀ n, n < 29 →
    stepChunk false 20 (c8input.take n) = (c8input.take n, []) := by decide

theorem c8phase2 : ∀ m, m < 28 →
    stepChunk false 20 ((c8input.drop 29).take m) = ((c8input.drop 29).take m, []) := by decide

theorem c8phase12 : ∀ m, m < 28 →
    stepChunk false 20 (c8input.take (29 + m))
      = ((c8input.drop 29).take m, [c8first]) := by decide

theorem c8run : ∀ (ts : List (List Char)) (n : Nat), n ≤ 56 →
    ts.flatten = c8input.drop n →
    runTokens false 20 (if n < 29 then c8input.take n else (c8input.drop 29).take (n - 29)) ts
      = ((c8input.drop 29).take 27, if n < 29 then [c8first] else []) := by
  intro ts
  have hclen : c8input.length = 56 := by decide
  induction ts with
  | nil =>
    intro n hn hj
    have h56 : c8input.length ≤ n := List.drop_eq_nil_iff.mp (by rw [← hj]; rfl)
    have hn56 : n = 56 := by omega
    subst hn56
    norm_num [runTokens]
  | cons t ts ih =>
    intro n hn hj
    rw [List.flatten_cons] at hj
    have ht : t = (c8input.drop n).take t.length := by rw [← hj, List.take_left]
    have hts : ts.flatten = c8input.drop (n + t.length) := by
      rw [← List.drop_drop t.length n c8input, ← hj, List.drop_left]
    have hk : n + t.length ≤ 56 := by
      have hlen := congrArg List.length hj
      rw [List.length_append, List.length_drop, hclen] at hlen
      omega
    rw [runTokens]
    by_cases hn29 : n < 29
    · rw [if_pos hn29]
      have hbuf : c8input.take n ++ t = c8input.take (n + t.length) := by
        rw [List.take_add, ← ht]
      by_cases hnk29 : n + t.length < 29
      · rw [hbuf, c8phase1 (n + t.length) hnk29]
        have hrec := ih (n + t.length) hk hts
        simp only [if_pos hnk29] at hrec
        rw [hrec]
        simp [if_pos hn29]
      · have hm : n + t.length - 29 < 28 := by omega
        have he : 29 + (n + t.length - 29) = n + t.length := by omega
        have hp := c8phase12 (n + t.length - 29) hm
        rw [he] at hp
        rw [hbuf, hp]
        have hrec := ih (n + t.length) hk hts
        simp only [if_neg hnk29] at hrec
        rw [hrec]
        simp [if_pos hn29]
    · rw [if_neg hn29]
      have hdn : c8input.drop n = (c8input.drop 29).drop (n - 29) := by
        rw [List.drop_drop]
        congr 1
        omega
      have hbuf : (c8input.drop 29).take (n - 29) ++ t
          = (c8input.drop 29).take (n - 29 + t.length) := by
        rw [List.take_add, ← hdn, ← ht]
      have hm : n - 29 + t.length < 28 := by omega
      rw [hbuf, c8phase2 (n - 29 + t.length) hm]
      have hrec := ih (n + t.length) hk hts
      have hnk : ¬ n + t.length < 29 := by omega
      simp only [if_neg hnk] at hrec
      have he : n + t.length - 29 = n - 29 + t.length := by omega
      rw [he] at hrec
      rw [hrec]
      simp [if_neg hn29]

theorem stepChunk_sent_emit (dot : Bool) (mc : Nat) (buf : List Char) (i : Nat)
    (hb : boundaryAt sentTerm buf i) (hnl : noLineTermBefore dot buf i)
    (hmin : ∀ j, j < i → ¬ boundaryAt sentTerm buf j) (hth : mc ≤ wsExtent buf i) :
    stepChunk dot mc buf
      = (buf.drop (wsExtent buf i), [trimChars (buf.take (wsExtent buf i))]) := by
  have hfb := findBoundary_first dot sentTerm i buf hb hnl hmin
  rw [stepChunk_eq_some dot mc buf _ _ hfb]
  have hlen : (buf.take (wsExtent buf i)).length = wsExtent buf i := by
    rw [List.length_take]
    exact min_eq_left (wsExtent_le buf i hb.1)
  rw [hlen, if_pos hth]

theorem stepChunk_sent_small (dot : Bool) (mc : Nat) (buf : List Char) (i : Nat)
    (hb : boundaryAt sentTerm buf i) (hnl : noLineTermBefore dot buf i)
    (hmin : ∀ j, j < i → ¬ boundaryAt sentTerm buf j) (hth : wsExtent buf i < mc)
    (h50 : buf.length ≤ 50) :
    stepChunk dot mc buf = (buf, []) := by
  have hfb := findBoundary_first dot sentTerm i buf hb hnl hmin
  rw [stepChunk_eq_some dot mc buf _ _ hfb]
  have hlen : (buf.take (wsExtent buf i)).length = wsExtent buf i := by
    rw [List.length_take]
    exact min_eq_left (wsExtent_le buf i hb.1)
  rw [hlen, if_neg (not_le.mpr hth), clausePart_small dot mc buf (by omega)]

theorem stepChunk_none_small (dot : Bool) (mc : Nat) (buf : List Char)
    (hno : ∀ i, ¬ (boundaryAt sentTerm buf i ∧ noLineTermBefore dot buf i))
    (h50 : buf.length ≤ 50) :
    stepChunk dot mc buf = (buf, []) := by
  rw [stepChunk_eq_none dot mc buf (findBoundary_none dot sentTerm buf hno),
    clausePart_small dot mc buf (by omega)]

theorem clausePart_emit (dot : Bool) (mc : Nat) (buf : List Char) (k : Nat)
    (h50 : 50 < buf.length)
    (hb : boundaryAt clauseTerm buf k) (hnl : noLineTermBefore dot buf k)
    (hmin : ∀ j, j < k → ¬ boundaryAt clauseTerm buf j) (hth : mc ≤ wsExtent buf k) :
    clausePart dot mc buf
      = (buf.drop (wsExtent buf k), [trimChars (buf.take (wsExtent buf k))]) := by
  have hfb := findBoundary_first dot clauseTerm k buf hb hnl hmin
  rw [clausePart_eq_some dot mc buf _ _ h50 hfb]
  have hlen : (buf.take (wsExtent buf k)).length = wsExtent buf k := by
    rw [List.length_take]
    exact min_eq_left (wsExtent_le buf k hb.1)
  rw [hlen, if_pos hth]

theorem stepChunk_clause_emit (dot : Bool) (mc : Nat) (buf : List Char) (k : Nat)
    (hno : ∀ i, ¬ (boundaryAt sentTerm buf i ∧ noLineTermBefore dot buf i))
    (h50 : 50 < buf.length)
    (hb : boundaryAt clauseTerm buf k) (hnl : noLineTermBefore dot buf k)
    (hmin : ∀ j, j < k → ¬ boundaryAt clauseTerm buf j) (hth : mc ≤ wsExtent buf k) :
    stepChunk dot mc buf
      = (buf.drop (wsExtent buf k), [trimChars (buf.take (wsExtent buf k))]) := by
  rw [stepChunk_eq_none dot mc buf (findBoundary_none dot sentTerm buf hno)]
  exact clausePart_emit dot mc buf k h50 hb hnl hmin hth

theorem stepChunk_sent_small_clause_emit (dot : Bool) (mc : Nat) (buf : List Char)
    (i k : Nat)
    (hb : boundaryAt sentTerm buf i) (hnl : noLineTermBefore dot buf i)
    (hmin : ∀ j, j < i → ¬ boundaryAt sentTerm buf j) (hth : wsExtent buf i < mc)
    (h50 : 50 < buf.length)
    (hbc : boundaryAt clauseTerm buf k) (hnlc : noLineTermBefore dot buf k)
    (hminc : ∀ j, j < k → ¬ boundaryAt clauseTerm buf j) (hthc : mc ≤ wsExtent buf k) :
    stepChunk dot mc buf
      = (buf.drop (wsExtent buf k), [trimChars (buf.take (wsExtent buf k))]) := by
  have hfb := findBoundary_first dot sentTerm i buf hb hnl hmin
  rw [stepChunk_eq_some dot mc buf _ _ hfb]
  have hlen : (buf.take (wsExtent buf i)).length = wsExtent buf i := by
    rw [List.length_take]
    exact min_eq_left (wsExtent_le buf i hb.1)
  rw [hlen, if_neg (not_le.mpr hth)]
  exact clausePart_emit dot mc buf k h50 hbc hnlc hminc hthc

/-- First counterexample buffer for C1: the shortest sentence-boundary match
is below the threshold while a longer boundary prefix is above it. -/
def c1bufA : List Char := "Ok. This is a fine sentence now. ".toList

/-- Second counterexample buffer for C1: the raw match length (21, trailing
whitespace included) reaches the threshold while the trimmed length (19)
does not. -/
def c1bufB : List Char := "abcdefghijklmnopqr.  tail".toList

/-- C1 counterexample: the claim is false as stated.  Against `c1bufA`, a
prefix ending in a sentence terminator followed by whitespace with trimmed
length at least 20 exists (the boundary at position 31), yet `addToken`
emits nothing, because the lazy regex selects the shortest boundary match
(at position 2), which is below the threshold, and the buffer is not past
the 50-character clause gate.  Against `c1bufB`, `addToken` emits even
though the emitted prefix trims to fewer than 20 characters, because the
threshold is compared against the raw match length including trailing
whitespace. -/
theorem c1_counterexample :
    (boundaryAt sentTerm c1bufA 31
      ∧ 20 ≤ (trimChars (c1bufA.take (wsExtent c1bufA 31))).length
      ∧ LLMTextChunker.addToken { buffer := [], minChars := 20 } c1bufA
          = ({ buffer := c1bufA, minChars := 20 }, []))
    ∧ ((trimChars (c1bufB.take (wsExtent c1bufB 18))).length < 20
      ∧ LLMTextChunker.addToken { buffer := [], minChars := 20 } c1bufB
          = ({ buffer := "tail".toList, minChars := 20 },
             [trimChars (c1bufB.take (wsExtent c1bufB 18))])) := by decide

/-- C1 (amended): for every pending buffer and fragment, with
`buf = pending ++ fragment` after appending: (1) if the FIRST sentence
boundary (terminator of `.`, `!`, `?` immediately followed by whitespace,
reachable without crossing a line terminator) extended through its
whitespace run
has raw length at least `minChars`, `addToken` emits exactly that prefix
trimmed and removes exactly it from the buffer; (2)-(3) if the first
sentence boundary is below the threshold, or no sentence boundary exists,
and the buffer length is at most 50, nothing is emitted and the buffer is
unchanged (the clause fallback is not evaluated); (4)-(5) the clause
fallback (`,`, `;`, `:` followed by whitespace, same raw-length threshold)
applies only when the buffer length exceeds 50 and no sentence emission
occurred, and then emits the first clause-boundary prefix trimmed,
removing exactly it. -/
theorem c1_first_boundary (mc : Nat) (pending tok : List Char) :
    (∀ i, boundaryAt sentTerm (pending ++ tok) i →
        noLineTermBefore false (pending ++ tok) i →
        (∀ j, j < i → ¬ boundaryAt sentTerm (pending ++ tok) j) →
        mc ≤ wsExtent (pending ++ tok) i →
        LLMTextChunker.addToken { buffer := pending, minChars := mc } tok
          = ({ buffer := (pending ++ tok).drop (wsExtent (pending ++ tok) i), minChars := mc },
             [trimChars ((pending ++ tok).take (wsExtent (pending ++ tok) i))]))
    ∧ (∀ i, boundaryAt sentTerm (pending ++ tok) i →
        noLineTermBefore false (pending ++ tok) i →
        (∀ j, j < i → ¬ boundaryAt sentTerm (pending ++ tok) j) →
        wsExtent (pending ++ tok) i < mc → (pending ++ tok).length ≤ 50 →
        LLMTextChunker.addToken { buffer := pending, minChars := mc } tok
          = ({ buffer := pending ++ tok, minChars := mc }, []))
    ∧ ((∀ i, ¬ (boundaryAt sentTerm (pending ++ tok) i ∧ noLineTermBefore false (pending ++ tok) i)) →
        (pending ++ tok).length ≤ 50 →
        LLMTextChunker.addToken { buffer := pending, minChars := mc } tok
          = ({ buffer := pending ++ tok, minChars := mc }, []))
    ∧ ((∀ i, ¬ (boundaryAt sentTerm (pending ++ tok) i ∧ noLineTermBefore false (pending ++ tok) i)) →
        50 < (pending ++ tok).length →
        ∀ k, boundaryAt clauseTerm (pending ++ tok) k →
          noLineTermBefore false (pending ++ tok) k →
          (∀ j, j < k → ¬ boundaryAt clauseTerm (pending ++ tok) j) →
          mc ≤ wsExtent (pending ++ tok) k →
          LLMTextChunker.addToken { buffer := pending, minChars := mc } tok
            = ({ buffer := (pending ++ tok).drop (wsExtent (pending ++ tok) k), minChars := mc },
               [trimChars ((pending ++ tok).take (wsExtent (pending ++ tok) k))]))
    ∧ (∀ i, boundaryAt sentTerm (pending ++ tok) i →
        noLineTermBefore false (pending ++ tok) i →
        (∀ j, j < i → ¬ boundaryAt sentTerm (pending ++ tok) j) →
        wsExtent (pending ++ tok) i < mc → 50 < (pending ++ tok).length →
        ∀ k, boundaryAt clauseTerm (pending ++ tok) k →
          noLineTermBefore false (pending ++ tok) k →
          (∀ j, j < k → ¬ boundaryAt clauseTerm (pending ++ tok) j) →
          mc ≤ wsExtent (pending ++ tok) k →
          LLMTextChunker.addToken { buffer := pending, minChars := mc } tok
            = ({ buffer := (pending ++ tok).drop (wsExtent (pending ++ tok) k), minChars := mc },
               [trimChars ((pending ++ tok).take (wsExtent (pending ++ tok) k))])) := by
  have hwrap : ∀ b o, stepChunk false mc (pending ++ tok) = (b, o) →
      LLMTextChunker.addToken { buffer := pending, minChars := mc } tok
        = ({ buffer := b, minChars := mc }, o) := by
    intro b o h
    unfold LLMTextChunker.addToken
    rw [h]
  refine ⟨?_, ?_, ?_, ?_, ?_⟩
  · intro i hb hnl hmin hth
    exact hwrap _ _ (stepChunk_sent_emit false mc (pending ++ tok) i hb hnl hmin hth)
  · intro i hb hnl hmin hth h50
    exact hwrap _ _ (stepChunk_sent_small false mc (pending ++ tok) i hb hnl hmin hth h50)
  · intro hno h50
    exact hwrap _ _ (stepChunk_none_small false mc (pending ++ tok) hno h50)
  · intro hno h50 k hbc hnlc hminc hthc
    exact hwrap _ _ (stepChunk_clause_emit false mc (pending ++ tok) k hno h50 hbc hnlc hminc hthc)
  · intro i hb hnl hmin hth h50 k hbc hnlc hminc hthc
    exact hwrap _ _
      (stepChunk_sent_small_clause_emit false mc (pending ++ tok) i k hb hnl hmin hth h50
        hbc hnlc hminc hthc)

/-- Concrete input for the C1 witness. -/
def c1wit : List Char := "This is a long sentence. tail".toList

/-- C1 witness: the amended theorem applied at a concrete buffer whose first
sentence boundary sits at position 23 with match extent 25. -/
theorem c1_first_boundary_witness :
    LLMTextChunker.addToken { buffer := [], minChars := 20 } c1wit
      = ({ buffer := (([] : List Char) ++ c1wit).drop (wsExtent (([] : List Char) ++ c1wit) 23),
            minChars := 20 },
         [trimChars ((([] : List Char) ++ c1wit).take (wsExtent (([] : List Char) ++ c1wit) 23))]) :=
  (c1_first_boundary 20 [] c1wit).1 23 (by decide) (by decide)
    (by decide) (by decide)

/-- C7: for every fragment sequence fed through `add`/`addToken` (both
regex variants) followed by one `flush()`, the concatenation of the emitted
chunk texts carries exactly the non-whitespace characters of the
concatenated input, in order: no non-whitespace character is lost,
duplicated, or reordered (whitespace is only trimmed at chunk boundaries). -/
theorem c7_reconstruction (dot : Bool) (mc : Nat) (ts : List (List Char)) :
    ((runAll dot mc ts).2.flatten).filter nonWS = (ts.flatten).filter nonWS := by
  have h1 := runTokens_filter dot mc ts []
  have h2 := flushChunk_filter (runTokens dot mc [] ts).1
  have h3 := flushChunk_rest_ws (runTokens dot mc [] ts).1
  have hr : (runAll dot mc ts).2
      = (runTokens dot mc [] ts).2 ++ (flushChunk (runTokens dot mc [] ts).1).2 := rfl
  rw [hr]
  simp only [List.filter_append] at h2
  rw [h3, List.append_nil] at h2
  simp only [List.filter_append, List.nil_append] at h1
  simp only [List.flatten_append, List.filter_append]
  rw [h2, h1]

/-- C8: with `minChars = 20`, for EVERY partition of the input
"Sure, let(apos)s break this down. First, here(apos)s how it works." into
fragments fed one at a time through `addToken` followed by one `flush()`,
the segmenter emits exactly two chunks, in order: the first sentence and
then the second sentence. -/
theorem c8_two_chunks (ts : List (List Char)) (h : ts.flatten = c8input) :
    (runAll false 20 ts).2 = [c8first, c8second] := by
  have h0 := c8run ts 0 (by omega) (by simpa using h)
  norm_num at h0
  have hf : flushChunk ((c8input.drop 29).take 27) = ([], [c8second]) := by decide
  have hr : (runAll false 20 ts).2
      = (runTokens false 20 [] ts).2 ++ (flushChunk (runTokens false 20 [] ts).1).2 := rfl
  rw [hr, h0]
  simp [hf]

/-- Concrete three-fragment partition of the C8 input. -/
def c8tokens : List (List Char) :=
  ["Sure, l".toList,
   "et".toList ++ [apos] ++ "s break this down. Fir".toList,
   "st, here".toList ++ [apos] ++ "s how it works.".toList]

/-- C8 witness: the theorem applied to a concrete partition of the input. -/
theorem c8_two_chunks_witness :
    (runAll false 20 c8tokens).2 = [c8first, c8second] :=
  c8_two_chunks c8tokens (by decide)

/-- C9 counterexample: the claim that the pending buffer is always empty
after `flush()` fails on a whitespace-only buffer: the truthiness guard is
false, so the source never clears the buffer, which still holds one space
after `flush()`. -/
theorem c9_counterexample :
    (LLMTextChunker.flush { buffer := [' '], minChars := 20 }).1.buffer = [' ']
      ∧ ([' '] : List Char) ≠ [] := by decide

/-- C9 (amended): `flush()` emits exactly one chunk, the trimmed buffer,
precisely when the buffer is non-empty after trimming, and emits nothing
otherwise; whenever it emits, the buffer is cleared; in every case the
remaining buffer trims to empty (it is either empty or whitespace-only,
the latter being left unchanged rather than cleared). -/
theorem c9_flush_behavior (buf : List Char) (mc : Nat) :
    ((LLMTextChunker.flush { buffer := buf, minChars := mc }).2 = [] ↔ trimChars buf = [])
    ∧ ((LLMTextChunker.flush { buffer := buf, minChars := mc }).2 = []
        ∨ (LLMTextChunker.flush { buffer := buf, minChars := mc }).2 = [trimChars buf])
    ∧ trimChars (LLMTextChunker.flush { buffer := buf, minChars := mc }).1.buffer = []
    ∧ (trimChars buf ≠ [] →
        (LLMTextChunker.flush { buffer := buf, minChars := mc }).1.buffer = []
        ∧ (LLMTextChunker.flush { buffer := buf, minChars := mc }).2 = [trimChars buf]) := by
  unfold LLMTextChunker.flush flushChunk
  by_cases h : trimChars buf = []
  · simp [h]
  · have hnil : trimChars ([] : List Char) = [] := rfl
    simp [h, hnil]

/-- C9 witness: the amended theorem applied at a concrete non-empty buffer,
discharging the inner hypothesis. -/
theorem c9_flush_witness :
    (LLMTextChunker.flush { buffer := " Hi there. ".toList, minChars := 20 }).1.buffer = []
    ∧ (LLMTextChunker.flush { buffer := " Hi there. ".toList, minChars := 20 }).2
        = [trimChars (" Hi there. ".toList)] :=
  (c9_flush_behavior (" Hi there. ".toList) 20).2.2.2 (by decide)

/-- C6 counterexample: with a pending buffer holding text, `finalize()`
dispatches the flushed terminal chunk with `isFinal = false` and then a
SEPARATE message with EMPTY text carrying `isFinal = true`; the claim that
the flushed terminal unit itself is marked `isFinal` with non-empty text is
false at this concrete state. -/
theorem c6_counterexample :
    (VoicePipeline.finalize { buffer := "Hello there friend".toList, sent := [] }).sent
      = [("Hello there friend".toList, false), ([], true)]
    ∧ ((VoicePipeline.finalize { buffer := "Hello there friend".toList, sent := [] }).sent.filter
        (fun m => m.2)).map (fun m => m.1) = [[]]
    ∧ ("Hello there friend".toList ≠ ([] : List Char)) := by decide

/-- C6 (amended): `finalize()` flushes the segmenter, dispatching the
flushed remainder (when the buffer is non-empty after trimming) with
`isFinal = false` through the chunker callback, and then always sends one
additional empty-text message with `isFinal = true`; `isFinal` is true only
on that empty sentinel message, whose text is empty rather than non-empty. -/
theorem c6_finalize_behavior (ps : VoicePipeline) :
    (VoicePipeline.finalize ps).sent
      = ps.sent ++ (if trimChars ps.buffer = [] then [] else [(trimChars ps.buffer, false)])
          ++ [([], true)]
    ∧ (VoicePipeline.finalize ps).buffer
      = (if trimChars ps.buffer = [] then ps.buffer else []) := by
  unfold VoicePipeline.finalize flushChunk
  by_cases h : trimChars ps.buffer = []
  · simp [h]
  · simp [h]

theorem addChunk_inv (st st2 : AudioStreamPlayer) (now : ℚ) (b : List Nat) (s d : ℚ)
    (h : AudioStreamPlayer.addChunk st now b = (st2, .scheduled s d)) :
    s = max st.nextStartTime now ∧ st2.nextStartTime = s + d := by
  unfold AudioStreamPlayer.addChunk at h
  by_cases hg : (!st.inited || !st.isPlaying) = true
  · rw [if_pos hg] at h
    simp at h
  · rw [if_neg hg] at h
    cases hb : bytesToSamples b with
    | none => rw [hb] at h; simp at h
    | some samples =>
      rw [hb] at h
      simp only [Prod.mk.injEq, AddResult.scheduled.injEq] at h
      obtain ⟨hst, hs, hd⟩ := h
      constructor
      · exact hs.symm
      · rw [← hst, hs, hd]

theorem addPCM_inv (st st2 : AudioQueuePlayer) (now : ℚ) (b : List Nat) (s d : ℚ)
    (h : AudioQueuePlayer.addPCM st now b = (st2, .scheduled s d)) :
    s = max st.nextStartTime now ∧ st2.nextStartTime = s + d := by
  unfold AudioQueuePlayer.addPCM at h
  by_cases hg : (!st.inited) = true
  · rw [if_pos hg] at h
    simp at h
  · rw [if_neg hg] at h
    cases hb : bytesToSamples b with
    | none => rw [hb] at h; simp at h
    | some samples =>
      rw [hb] at h
      simp only [Prod.mk.injEq, AddResult.scheduled.injEq] at h
      obtain ⟨hst, hs, hd⟩ := h
      constructor
      · exact hs.symm
      · rw [← hst, hs, hd]

/-- C2: for any two consecutive scheduling calls that both schedule a
buffer, on `AudioStreamPlayer.addChunk` as well as `AudioQueuePlayer.addPCM`:
each chosen start equals `max(nextStartTime, currentTime)`, after each call
`nextStartTime` equals the chosen start plus the buffer duration, and the
second chunk starts no earlier than the first chunk finishes. -/
theorem c2_gapless :
    (∀ (st1 st2 st3 : AudioStreamPlayer) (nowA nowB : ℚ) (bA bB : List Nat) (sA dA sB dB : ℚ),
      AudioStreamPlayer.addChunk st1 nowA bA = (st2, .scheduled sA dA) →
      AudioStreamPlayer.addChunk st2 nowB bB = (st3, .scheduled sB dB) →
      sA = max st1.nextStartTime nowA ∧ st2.nextStartTime = sA + dA
        ∧ sB = max st2.nextStartTime nowB ∧ st3.nextStartTime = sB + dB
        ∧ sA + dA ≤ sB)
    ∧ (∀ (st1 st2 st3 : AudioQueuePlayer) (nowA nowB : ℚ) (bA bB : List Nat) (sA dA sB dB : ℚ),
      AudioQueuePlayer.addPCM st1 nowA bA = (st2, .scheduled sA dA) →
      AudioQueuePlayer.addPCM st2 nowB bB = (st3, .scheduled sB dB) →
      sA = max st1.nextStartTime nowA ∧ st2.nextStartTime = sA + dA
        ∧ sB = max st2.nextStartTime nowB ∧ st3.nextStartTime = sB + dB
        ∧ sA + dA ≤ sB) := by
  constructor
  · intro st1 st2 st3 nowA nowB bA bB sA dA sB dB h1 h2
    obtain ⟨ha1, ha2⟩ := addChunk_inv st1 st2 nowA bA sA dA h1
    obtain ⟨hb1, hb2⟩ := addChunk_inv st2 st3 nowB bB sB dB h2
    refine ⟨ha1, ha2, hb1, hb2, ?_⟩
    rw [hb1, ← ha2]
    exact le_max_left _ _
  · intro st1 st2 st3 nowA nowB bA bB sA dA sB dB h1 h2
    obtain ⟨ha1, ha2⟩ := addPCM_inv st1 st2 nowA bA sA dA h1
    obtain ⟨hb1, hb2⟩ := addPCM_inv st2 st3 nowB bB sB dB h2
    refine ⟨ha1, ha2, hb1, hb2, ?_⟩
    rw [hb1, ← ha2]
    exact le_max_left _ _

/-- C2 witness: two concrete consecutive chunks (one sample, then two
samples at 22050 Hz) on each player, hypotheses discharged by evaluation. -/
theorem c2_gapless_witness :
    ((0 : ℚ) = max 0 0 ∧ ((1 : ℚ) / 22050) = 0 + 1 / 22050
      ∧ ((1 : ℚ) / 22050) = max (1 / 22050 : ℚ) 0
      ∧ ((1 : ℚ) / 22050 + 1 / 11025) = 1 / 22050 + 1 / 11025
      ∧ ((0 : ℚ) + 1 / 22050) ≤ 1 / 22050)
    ∧ ((0 : ℚ) = max 0 0 ∧ ((1 : ℚ) / 22050) = 0 + 1 / 22050
      ∧ ((1 : ℚ) / 22050) = max (1 / 22050 : ℚ) 0
      ∧ ((1 : ℚ) / 22050 + 1 / 11025) = 1 / 22050 + 1 / 11025
      ∧ ((0 : ℚ) + 1 / 22050) ≤ 1 / 22050) :=
  ⟨c2_gapless.1
      { inited := true, isPlaying := true, nextStartTime := 0, sampleRate := 22050,
        scheduled := [] }
      { inited := true, isPlaying := true, nextStartTime := 1 / 22050, sampleRate := 22050,
        scheduled := [(0, 1 / 22050)] }
      { inited := true, isPlaying := true, nextStartTime := 1 / 22050 + 1 / 11025,
        sampleRate := 22050, scheduled := [(0, 1 / 22050), (1 / 22050, 1 / 11025)] }
      0 0 [0, 0] [0, 0, 0, 0] 0 (1 / 22050) (1 / 22050) (1 / 11025)
      (by norm_num [AudioStreamPlayer.addChunk, bytesToSamples, toInt16])
      (by norm_num [AudioStreamPlayer.addChunk, bytesToSamples, toInt16]),
   c2_gapless.2
      { inited := true, nextStartTime := 0, sampleRate := 22050, sources := [] }
      { inited := true, nextStartTime := 1 / 22050, sampleRate := 22050,
        sources := [(0, 1 / 22050)] }
      { inited := true, nextStartTime := 1 / 22050 + 1 / 11025, sampleRate := 22050,
        sources := [(0, 1 / 22050), (1 / 22050, 1 / 11025)] }
      0 0 [0, 0] [0, 0, 0, 0] 0 (1 / 22050) (1 / 22050) (1 / 11025)
      (by norm_num [AudioQueuePlayer.addPCM, bytesToSamples, toInt16])
      (by norm_num [AudioQueuePlayer.addPCM, bytesToSamples, toInt16])⟩

/-- C10: `addChunk` is a silent no-op (no state change, nothing scheduled,
no throw) whenever the context has not been acquired or the playing flag is
cleared; `addPCM` likewise when the context has not been acquired. -/
theorem c10_noop :
    (∀ (st : AudioStreamPlayer) (now : ℚ) (b : List Nat),
      st.inited = false ∨ st.isPlaying = false →
      AudioStreamPlayer.addChunk st now b = (st, .noop))
    ∧ (∀ (st : AudioQueuePlayer) (now : ℚ) (b : List Nat),
      st.inited = false →
      AudioQueuePlayer.addPCM st now b = (st, .noop)) := by
  constructor
  · intro st now b h
    unfold AudioStreamPlayer.addChunk
    have hg : (!st.inited || !st.isPlaying) = true := by
      rcases h with h | h <;> simp [h]
    rw [if_pos hg]
  · intro st now b h
    unfold AudioQueuePlayer.addPCM
    rw [if_pos (by simp [h])]

/-- C10 witness: a never-initialised player given a chunk at device time 5
is left completely unchanged by both entry points. -/
theorem c10_noop_witness :
    AudioStreamPlayer.addChunk
        { inited := false, isPlaying := false, nextStartTime := 3, sampleRate := 22050,
          scheduled := [] } 5 [0, 0]
      = ({ inited := false, isPlaying := false, nextStartTime := 3, sampleRate := 22050,
           scheduled := [] }, .noop)
    ∧ AudioQueuePlayer.addPCM
        { inited := false, nextStartTime := 3, sampleRate := 22050, sources := [] } 5 [0, 0]
      = ({ inited := false, nextStartTime := 3, sampleRate := 22050, sources := [] }, .noop) :=
  ⟨c10_noop.1 _ 5 [0, 0] (Or.inl rfl), c10_noop.2 _ 5 [0, 0] rfl⟩

/-- C5 counterexample: with the device clock at 5, `AudioStreamPlayer.stop`
sets `nextStartTime` to 0, not to the device current time, refuting the
claim that every scheduler stop resets the offset to the current time. -/
theorem c5_counterexample :
    (AudioStreamPlayer.stop
      { inited := true, isPlaying := true, nextStartTime := 7, sampleRate := 22050,
        scheduled := [(0, 2)] }).1.nextStartTime = 0
    ∧ ((0 : ℚ) ≠ 5) := by
  constructor
  · rfl
  · norm_num

/-- C5 (amended): `stop()` cancels every retained scheduled unit (the whole
retained list is stopped) and clears the handle list; `AudioStreamPlayer.stop`
resets `nextStartTime` to 0 and clears the playing flag, so that a further
`addChunk` before re-initialisation is a no-op, while `AudioQueuePlayer.stop`
resets `nextStartTime` to the device current time; after a fresh `init()`
(which sets `nextStartTime` to the device current time and restores the
playing flag) a subsequent `addChunk` schedules normally, starting at the
maximum of the init-time clock value and the current clock value, retaining
exactly the new handle. -/
theorem c5_stop_behavior :
    (∀ st : AudioStreamPlayer,
      (AudioStreamPlayer.stop st).2 = st.scheduled
      ∧ (AudioStreamPlayer.stop st).1.scheduled = []
      ∧ (AudioStreamPlayer.stop st).1.nextStartTime = 0
      ∧ (AudioStreamPlayer.stop st).1.isPlaying = false
      ∧ (∀ now b, AudioStreamPlayer.addChunk (AudioStreamPlayer.stop st).1 now b
          = ((AudioStreamPlayer.stop st).1, .noop)))
    ∧ (∀ (st : AudioStreamPlayer) (now now2 : ℚ) (b : List Nat) (samples : List Int),
      bytesToSamples b = some samples →
      AudioStreamPlayer.addChunk (AudioStreamPlayer.init (AudioStreamPlayer.stop st).1 now) now2 b
        = ({ inited := true, isPlaying := true,
             nextStartTime := max now now2 + (samples.length : ℚ) / st.sampleRate,
             sampleRate := st.sampleRate,
             scheduled := [(max now now2, (samples.length : ℚ) / st.sampleRate)] },
           .scheduled (max now now2) ((samples.length : ℚ) / st.sampleRate)))
    ∧ (∀ (st : AudioQueuePlayer) (now : ℚ),
      st.inited = true →
      (AudioQueuePlayer.stop st now).2 = st.sources
      ∧ (AudioQueuePlayer.stop st now).1.sources = []
      ∧ (AudioQueuePlayer.stop st now).1.nextStartTime = now) := by
  refine ⟨?_, ?_, ?_⟩
  · intro st
    refine ⟨rfl, rfl, rfl, rfl, ?_⟩
    intro now b
    unfold AudioStreamPlayer.addChunk
    rw [if_pos (by simp [AudioStreamPlayer.stop])]
  · intro st now now2 b samples hb
    unfold AudioStreamPlayer.addChunk
    rw [if_neg (by simp [AudioStreamPlayer.init, AudioStreamPlayer.stop])]
    simp only [AudioStreamPlayer.init, AudioStreamPlayer.stop, hb, List.nil_append]
  · intro st now h
    refine ⟨rfl, rfl, ?_⟩
    simp [AudioQueuePlayer.stop, h]

/-- C5 witness: a concrete stopped player is re-initialised at clock value
9 and schedules a one-sample chunk at clock value 4; the stopped queue
player resets its offset to the concrete device time 5. -/
theorem c5_stop_witness :
    AudioStreamPlayer.addChunk
        (AudioStreamPlayer.init
          (AudioStreamPlayer.stop
            { inited := true, isPlaying := true, nextStartTime := 7, sampleRate := 22050,
              scheduled := [(0, 2)] }).1 9) 4 [0, 0]
      = ({ inited := true, isPlaying := true,
           nextStartTime := max 9 4 + (([toInt16 0 0] : List Int).length : ℚ) / 22050,
           sampleRate := 22050,
           scheduled := [(max 9 4, (([toInt16 0 0] : List Int).length : ℚ) / 22050)] },
         .scheduled (max 9 4) ((([toInt16 0 0] : List Int).length : ℚ) / 22050))
    ∧ (AudioQueuePlayer.stop
        { inited := true, nextStartTime := 3, sampleRate := 22050, sources := [(0, 1)] } 5).1.nextStartTime
      = 5 :=
  ⟨c5_stop_behavior.2.1 _ 9 4 [0, 0] [toInt16 0 0] rfl,
   (c5_stop_behavior.2.2 _ 5 rfl).2.2⟩

/-- C3: code behaviour at the failing input.  `streamTTSFromHTTP` performs
no sample alignment: each received byte range is handed directly to
`addChunk`, whose `Int16Array` construction rejects an odd byte length, so
a 1-byte first read aborts the stream instead of being deferred and
prefixed onto the following 3-byte read (which would have formed two whole
samples). -/
theorem c3_odd_read_aborts :
    runReads
        (AudioStreamPlayer.init
          { inited := false, isPlaying := false, nextStartTime := 0, sampleRate := 22050,
            scheduled := [] } 0) 0 [[1], [2, 3, 4]]
      = .error [1]
    ∧ bytesToSamples [1] = none
    ∧ bytesToSamples [1, 2, 3, 4] = some [toInt16 1 2, toInt16 3 4] :=
  ⟨rfl, rfl, rfl⟩

/-- C4: code behaviour at the failing input.  An `error` SSE event does not
end the response or surface an error state: the `throw` in the `error`
branch is swallowed by the surrounding catch that was meant for malformed
JSON, so the loop continues (a later `token` event still extends the
transcript and `done` still clears the loading flag) and `error` remains
`none`; only a non-OK HTTP status produces the visible error state. -/
theorem c4_error_event_swallowed :
    (sendMessage true
        [SSEEvent.errorEv ("boom".toList), SSEEvent.token ("x".toList), SSEEvent.done]).error
      = none
    ∧ (sendMessage true
        [SSEEvent.errorEv ("boom".toList), SSEEvent.token ("x".toList), SSEEvent.done]).transcript
      = "x".toList
    ∧ (sendMessage true
        [SSEEvent.errorEv ("boom".toList), SSEEvent.token ("x".toList), SSEEvent.done]).isLoading
      = false
    ∧ (sendMessage false []).error ≠ none := by
  refine ⟨rfl, rfl, rfl, ?_⟩
  simp [sendMessage]
